import Mathlib

/-
Formal model of ttynamed (src/main.rs), a tool that names USB serial
devices by a stable identity fingerprint rather than a volatile /dev path.
The definitions below are a shallow embedding of the programs core logic:
the hex-escape decoder, the udevadm property-line parser, device
enumeration filtering, the alias store with its TOML persistence, and the
resolve / add / delete / list subcommands.  Rust HashMaps are modelled as
association lists; the list order models one iteration order of the map.
-/

namespace Ttynamed

/-- Hex digit recognition, matching the POSIX xdigit class used by the
regex in udevadm_decode. -/
def isHexD (c : Char) : Bool :=
  c.isDigit || (('a' ≤ c) && (c ≤ 'f')) || (('A' ≤ c) && (c ≤ 'F'))

/-- Numeric value of a hex digit, as computed by from_str_radix. -/
def hexVal (c : Char) : Nat :=
  if c.isDigit then c.toNat - 48
  else if ('a' ≤ c) && (c ≤ 'f') then c.toNat - 87
  else c.toNat - 55

/-- Model of udevadm_decode in src/main.rs: replace_all of the regex
backslash x followed by two hex digits, each occurrence replaced by the
character whose code is the byte value (Rust char::from on u8).  The
from_str_radix error branch that yields a question mark is unreachable
because the captured digits are always hex.  Leftmost non-overlapping
replacement is modelled by scanning from the left. -/
def udevadmDecodeL : List Char → List Char
  | [] => []
  | [c] => [c]
  | [c, d] => [c, d]
  | [c, d, e] => [c, d, e]
  | c1 :: c2 :: c3 :: c4 :: t =>
    if c1 = '\\' && c2 = 'x' && isHexD c3 && isHexD c4 then
      Char.ofNat (hexVal c3 * 16 + hexVal c4) :: udevadmDecodeL t
    else
      c1 :: udevadmDecodeL (c2 :: c3 :: c4 :: t)

/-- String-level wrapper for the decoder. -/
def udevadm_decode (s : String) : String :=
  String.mk (udevadmDecodeL s.data)

/-- Whether a character list contains an escape sequence that the regex
in udevadm_decode would match. -/
def hasEsc : List Char → Bool
  | c1 :: c2 :: c3 :: c4 :: t =>
    (c1 = '\\' && c2 = 'x' && isHexD c3 && isHexD c4) || hasEsc (c2 :: c3 :: c4 :: t)
  | _ => false

/-- Identity fingerprint of a TTY device (struct Tty in src/main.rs).
Derived equality is field-wise, matching the derived PartialEq. -/
structure Tty where
  manufacturer : Option String
  model : Option String
  serial : Option String
deriving DecidableEq

/-- A currently connected device (struct PresentTty in src/main.rs). -/
structure PresentTty where
  tty : Tty
  device : String
deriving DecidableEq

/-- The alias store (struct Configuration in src/main.rs).  The Rust
HashMap from friendly name to Tty is modelled as an association list;
its order stands for one iteration order of the map. -/
structure Configuration where
  ttys : List (String × Tty)
deriving DecidableEq

/-- Association-list lookup, modelling HashMap get. -/
def alookup {α : Type} (k : String) : List (String × α) → Option α
  | [] => none
  | (k1, v) :: t => if k1 = k then some v else alookup k t

/-- Association-list insert with replacement, modelling HashMap insert. -/
def ainsert {α : Type} (k : String) (v : α) (l : List (String × α)) :
    List (String × α) :=
  (k, v) :: l.filter (fun p => !(p.1 = k : Bool))

/-- Association-list removal of a key, modelling HashMap remove. -/
def removeKey {α : Type} (k : String) (l : List (String × α)) :
    List (String × α) :=
  l.filter (fun p => !(p.1 = k : Bool))

/-- Whitespace test, modelling the regex class backslash-S complement. -/
def isSp (c : Char) : Bool := c.isWhitespace

/-- A single quote character, used to build test strings. -/
def qc : Char := '\''

/-- A single quote as a string. -/
def qs : String := String.singleton qc

/-- Split a character list at its last single quote: returns the part
before and after that quote, or none when no quote occurs.  Helper for
the greedy value capture of the udev property regex. -/
def lastQuote : List Char → Option (List Char × List Char)
  | [] => none
  | c :: rest =>
    match lastQuote rest with
    | some (a, b) => some (c :: a, b)
    | none => if c = qc then some ([], rest) else none

/-- Greedy match of the regex tail, a nonempty run of nonspace
characters followed by a closing quote, against the characters after
the opening quote; returns the captured value.  The capture is the
longest nonempty nonspace prefix that is immediately followed by a
quote, i.e. everything up to the last quote inside the nonspace run. -/
def tryValue (t : List Char) : Option (List Char) :=
  match lastQuote (t.takeWhile (fun c => !isSp c)) with
  | some (a, _) => if a.isEmpty then none else some a
  | none => none

/-- Backtracking key search of the udev property regex over a nonspace
run: find the largest split at an equals-quote pair such that a value
match follows; the deeper (longer-key) alternative is preferred, which
models the greedy key capture. -/
def keySearch : List Char → Option (List Char × List Char)
  | [] => none
  | c :: rest =>
    match keySearch rest with
    | some (k, v) => some (c :: k, v)
    | none =>
      if c = '=' then
        match rest with
        | q :: t => if q = qc then (tryValue t).map (fun v => ([], v)) else none
        | [] => none
      else none

/-- Match of the property regex inside one nonspace run; the key capture
must be nonempty. -/
def runMatch (r : List Char) : Option (List Char × List Char) :=
  match keySearch r with
  | some (k, v) => if k.isEmpty then none else some (k, v)
  | none => none

/-- Attempted match of the property regex at one start position: the
key capture is confined to the nonspace run beginning here, so only
that run is handed to the backtracking search.  A start on a space
yields the empty run and fails. -/
def matchAt (s : List Char) : Option (List Char × List Char) :=
  runMatch (s.takeWhile (fun x => !isSp x))

/-- Model of the regex search in read_usb_info over one output line of
udevadm: a key of nonspace characters, an equals sign, and a quoted
value of nonspace characters.  Start positions are tried left to right,
which is the leftmost-match rule of the regex engine. -/
def lineMatch : List Char → Option (List Char × List Char)
  | [] => none
  | c :: rest =>
    match matchAt (c :: rest) with
    | some kv => some kv
    | none => lineMatch rest

/-- Model of the property-parsing loop in read_usb_info: each matching
line inserts its key and raw value into the fields map. -/
def parseProps (lines : List String) : List (String × String) :=
  lines.foldl
    (fun m line =>
      match lineMatch line.data with
      | some (k, v) => ainsert (String.mk k) (String.mk v) m
      | none => m)
    []

/-- Model of the field extraction closure in read_usb_info: look the key
up in the fields map and decode the raw value. -/
def extractField (fields : List (String × String)) (key : String) :
    Option String :=
  (alookup key fields).map (fun raw => udevadm_decode raw)

/-- Model of read_usb_info in src/main.rs, as a function of the udevadm
output lines for one candidate device: parse the property lines, discard
the device unless its ID_BUS property is usb, discard it when it has no
DEVNAME property, and otherwise build the present device from the
decoded identity fields. -/
def read_usb_info (lines : List String) : Option PresentTty :=
  let fields := parseProps lines
  if alookup "ID_BUS" fields = some "usb" then
    match extractField fields "DEVNAME" with
    | some devname =>
      some ⟨⟨extractField fields "ID_VENDOR_ENC",
             extractField fields "ID_MODEL_ENC",
             extractField fields "ID_SERIAL_SHORT"⟩, devname⟩
    | none => none
  else none

/-- The reserved subcommand names collected by run_app. -/
def subcommandNames : List String := ["list", "add", "delete"]

/-- Semantics of the compiled name-validation regex in the add branch of
run_app.  The pattern is a negated class of the ranges a-z, A-Z, 0-9,
the underscore, and then two dashes.  The Rust regex crate parses the
two dashes as the class set-difference operator whose right operand is
empty, so the compiled class is the negation of letters, digits and
underscore alone: a dash in the name is matched by the negated class and
makes the name invalid, although the error message printed by the
program says dashes are allowed. -/
def invalidNameMatch (s : String) : Bool :=
  s.data.any (fun c => !(c.isAlpha || c.isDigit || c = '_'))

/-- Error message for an alias name that collides with a subcommand. -/
def subcommandNameMsg (friendly : String) : String :=
  "Invalid friendly name; " ++ qs ++ friendly ++ qs ++ " is a subcommand."

/-- Error message printed when the name-validation regex matches. -/
def invalidCharsMsg : String :=
  "Friendly names must only contain letters, digits, _, and -"

/-- Error message for an unknown alias in the resolve branch. -/
def unknownAliasMsg (friendly : String) : String :=
  friendly ++ " isn" ++ qs ++ "t a known friendly name."

/-- Error message for an ambiguous alias in the resolve branch. -/
def ambiguousMsg (friendly : String) : String :=
  "Multiple devices could be " ++ friendly

/-- Error message when the resolved alias matches no present device. -/
def notPresentMsg : String :=
  "That device doesn" ++ qs ++ "t appear to be present"

/-- Error message when several present devices share the given path. -/
def samePathMsg : String :=
  "Somehow, multiple USB TTYs use that same device!?"

/-- Error message when no present device has the given path. -/
def notConnectedMsg : String :=
  "Specified device doesn" ++ qs ++ "t seem to be a connected USB TTY."

/-- Error message for deleting a name that is not in the store. -/
def deleteUnknownMsg (friendly : String) : String :=
  friendly ++ " is not a current friendly name, so was not deleted."

/-- Model of the device-pick loop in the resolve branch of run_app:
scan the present devices, remember the first whose fingerprint equals
the stored one, and fail as soon as a second match is seen. -/
def pickLoop (tty : Tty) (friendly : String) :
    List PresentTty → Option String → Except String (Option String)
  | [], pick => .ok pick
  | c :: rest, pick =>
    if c.tty = tty then
      match pick with
      | none => pickLoop tty friendly rest (some c.device)
      | some _ => .error (ambiguousMsg friendly)
    else pickLoop tty friendly rest pick

/-- Model of the resolve branch of run_app (no subcommand, lines 373 to
406 of src/main.rs), over the loaded store and the enumerated present
devices: look the name up, then pick the unique matching device. -/
def resolveCmd (cfg : Configuration) (present : List PresentTty)
    (friendly : String) : Except String String :=
  match alookup friendly cfg.ttys with
  | none => .error (unknownAliasMsg friendly)
  | some tty =>
    match pickLoop tty friendly present none with
    | .error e => .error e
    | .ok (some pick) => .ok pick
    | .ok none => .error notPresentMsg

/-- Model of the device-search loop in the add branch of run_app: scan
the present devices for the given path, remember the first hit, and
fail when a second device claims the same path. -/
def findToAdd (device : String) :
    List PresentTty → Option PresentTty → Except String (Option PresentTty)
  | [], acc => .ok acc
  | t :: rest, acc =>
    if t.device = device then
      match acc with
      | none => findToAdd device rest (some t)
      | some _ => .error samePathMsg
    else findToAdd device rest acc

/-- Model of the add branch of run_app (lines 317 to 370 of
src/main.rs), over the loaded store and the enumerated present devices.
After validating the name and finding the device, every entry whose
fingerprint equals the new devices fingerprint is removed and the new
name is inserted; the boolean reports whether entries were removed,
which the program prints as modified rather than added. -/
def addCmd (friendly device : String) (cfg : Configuration)
    (present : List PresentTty) : Except String (Configuration × Bool) :=
  if subcommandNames.contains friendly then
    .error (subcommandNameMsg friendly)
  else if invalidNameMatch friendly then
    .error invalidCharsMsg
  else
    match findToAdd device present none with
    | .error e => .error e
    | .ok none => .error notConnectedMsg
    | .ok (some toAdd) =>
      let toRemove :=
        (cfg.ttys.filter (fun p => p.2 = toAdd.tty : _ → Bool)).map Prod.fst
      let removed := cfg.ttys.filter (fun p => !(toRemove.contains p.1))
      .ok (⟨ainsert friendly toAdd.tty removed⟩, !(toRemove.isEmpty))

/-- Structured model of a TOML document, the external serialization
format of the store: string values and tables of key-value pairs.  The
toml library is a collaborator outside this repository, so persistence
is modelled at the level of the document structure it guarantees to
round-trip, not at the level of concrete file bytes. -/
inductive Toml where
  | str : String → Toml
  | table : List (String × Toml) → Toml

/-- One optional fingerprint field as serialized by the serde derive:
present fields become string values, absent fields are omitted. -/
def optField (key : String) : Option String → List (String × Toml)
  | some s => [(key, Toml.str s)]
  | none => []

/-- Serialization of one Tty value. -/
def encodeTty (t : Tty) : Toml :=
  Toml.table (optField "manufacturer" t.manufacturer ++
              optField "model" t.model ++
              optField "serial" t.serial)

/-- Serialization of the whole store, a table with the single ttys
field holding the name-to-fingerprint table. -/
def encodeConfig (c : Configuration) : Toml :=
  Toml.table [("ttys", Toml.table (c.ttys.map (fun p => (p.1, encodeTty p.2))))]

/-- Deserialization of one optional string field: an absent key is the
absent option, a string value is the present option, and any other
shape is a schema error. -/
def getOptStr (kvs : List (String × Toml)) (key : String) :
    Option (Option String) :=
  match alookup key kvs with
  | none => some none
  | some (Toml.str s) => some (some s)
  | some (Toml.table _) => none

/-- Deserialization of one Tty value; unknown extra keys are ignored,
as serde does by default. -/
def decodeTty : Toml → Option Tty
  | Toml.str _ => none
  | Toml.table kvs => do
    let m ← getOptStr kvs "manufacturer"
    let mo ← getOptStr kvs "model"
    let s ← getOptStr kvs "serial"
    pure ⟨m, mo, s⟩

/-- Deserialization of the list of alias entries. -/
def decodeTtys : List (String × Toml) → Option (List (String × Tty))
  | [] => some []
  | (k, v) :: rest => do
    let t ← decodeTty v
    let r ← decodeTtys rest
    pure ((k, t) :: r)

/-- Deserialization of the whole store; a missing or non-table ttys
field is a schema error, since the Configuration struct has no serde
default for it. -/
def decodeConfig : Toml → Option Configuration
  | Toml.str _ => none
  | Toml.table kvs =>
    match alookup "ttys" kvs with
    | some (Toml.table ts) => (decodeTtys ts).map (fun l => ⟨l⟩)
    | _ => none

/-- State of the store file as the program can observe it through the
file API: missing, existing but failing to open (for example due to
permissions), opening but failing to read, or readable with a parsed
document. -/
inductive FsFile where
  | absent
  | unopenable
  | readFails
  | content : Toml → FsFile

/-- Error message for a failing read of the store file. -/
def readErrMsg : String := "Error reading config file"

/-- Error message for a store file that does not parse to the schema. -/
def parseErrMsg : String := "Error parsing config file"

/-- Model of load_config in src/main.rs.  The code matches only on
whether File open succeeded, so any open failure, absence included,
yields the default empty store; a read failure after a successful open
and a parse failure are errors. -/
def load_config (f : FsFile) : Except String Configuration :=
  match f with
  | FsFile.absent => .ok ⟨[]⟩
  | FsFile.unopenable => .ok ⟨[]⟩
  | FsFile.readFails => .error readErrMsg
  | FsFile.content doc =>
    match decodeConfig doc with
    | some cfg => .ok cfg
    | none => .error parseErrMsg

/-- Model of toml to_string for this schema: encoding is total. -/
def tomlEncodeE (c : Configuration) : Except String Toml :=
  .ok (encodeConfig c)

/-- Model of save_config in src/main.rs, abstracted over the encoder so
that an encoder failure can be exercised: an encode error is returned
before anything is written and the file keeps its prior state; on
success the file contents are replaced.  The write itself is modelled
as succeeding. -/
def save_config (enc : Configuration → Except String Toml)
    (config : Configuration) (file : FsFile) : FsFile × Except String Unit :=
  match enc config with
  | .error e => (file, .error ("Failed to encode configuration: " ++ e))
  | .ok doc => (FsFile.content doc, .ok ())

/-- Model of the delete branch of run_app (lines 301 to 315 of
src/main.rs) as a transition on the store file: load, remove the name
if present and save, otherwise fail without touching the file. -/
def deleteCmd (friendly : String) (file : FsFile) :
    FsFile × Except String Unit :=
  match load_config file with
  | .error e => (file, .error e)
  | .ok cfg =>
    if (alookup friendly cfg.ttys).isSome then
      save_config tomlEncodeE ⟨removeKey friendly cfg.ttys⟩ file
    else
      (file, .error (deleteUnknownMsg friendly))

/-- Terminal colors used to classify rows in the list branch; black is
the sentinel for no color. -/
inductive RowColor where
  | green
  | yellow
  | black
  | red
deriving DecidableEq

/-- One output row of the list branch: a color and five cells. -/
structure Row where
  color : RowColor
  cells : List String
deriving DecidableEq

/-- Model of the option printing helper pon in src/main.rs. -/
def pon : Option String → String
  | some s => s
  | none => "None"

/-- Names of the stored aliases whose fingerprint equals the given
present devices fingerprint, in store iteration order; this models the
filter over the ttys map in the list branch. -/
def matchedNames (cfg : Configuration) (d : PresentTty) : List String :=
  (cfg.ttys.filter (fun k => d.tty = k.2 : _ → Bool)).map Prod.fst

/-- Green rows pushed for one present device, one per matching alias. -/
def greenRows (cfg : Configuration) (d : PresentTty) : List Row :=
  (matchedNames cfg d).map
    (fun known => ⟨RowColor.green,
      [known, d.device, pon d.tty.manufacturer, pon d.tty.model,
       pon d.tty.serial]⟩)

/-- The single row pushed for a present device no alias matches: yellow
when some identity field is absent, otherwise uncolored. -/
def unmatchedRow (d : PresentTty) : Row :=
  ⟨if d.tty.manufacturer.isNone || d.tty.model.isNone || d.tty.serial.isNone
    then RowColor.yellow else RowColor.black,
   ["", d.device, pon d.tty.manufacturer, pon d.tty.model, pon d.tty.serial]⟩

/-- All rows pushed while visiting one present device. -/
def deviceRows (cfg : Configuration) (d : PresentTty) : List Row :=
  if (matchedNames cfg d).isEmpty then [unmatchedRow d]
  else greenRows cfg d

/-- The not_missing set accumulated by the present-device loop: every
alias name that matched some present device. -/
def notMissing (cfg : Configuration) (present : List PresentTty) :
    List String :=
  (present.map (matchedNames cfg)).flatten

/-- Red rows for stored aliases that matched no present device, in
store iteration order. -/
def missingRows (cfg : Configuration) (present : List PresentTty) :
    List Row :=
  (cfg.ttys.filter
      (fun k => !((notMissing cfg present).contains k.1))).map
    (fun k => ⟨RowColor.red,
      [k.1, "(missing)", pon k.2.manufacturer, pon k.2.model,
       pon k.2.serial]⟩)

/-- Model of the row construction of the list branch of run_app (lines
219 to 254 of src/main.rs) when the store loaded successfully: rows for
each present device in enumeration order, then rows for the missing
aliases in store iteration order. -/
def listRows (cfg : Configuration) (present : List PresentTty) : List Row :=
  (present.map (deviceRows cfg)).flatten ++ missingRows cfg present

/-- A list whose head is dropped still contains no escape sequence. -/
theorem hasEsc_tail {c : Char} {t : List Char} (h : hasEsc (c :: t) = false) :
    hasEsc t = false := by
  match t with
  | [] => rfl
  | [a] => rfl
  | [a, b] => rfl
  | a :: b :: d :: t' =>
    simp only [hasEsc, Bool.or_eq_false_iff] at h
    exact h.2

/-- The decoder is the identity on escape-free input. -/
theorem decode_noesc : ∀ l : List Char, hasEsc l = false → udevadmDecodeL l = l := by
  intro l
  induction l using udevadmDecodeL.induct with
  | case1 => intro _; rfl
  | case2 c => intro _; rfl
  | case3 c d => intro _; rfl
  | case4 c d e => intro _; rfl
  | case5 c1 c2 c3 c4 t hcond ih =>
    intro h
    simp only [hasEsc, Bool.or_eq_false_iff] at h
    exact absurd hcond (by simp [h.1])
  | case6 c1 c2 c3 c4 t hcond ih =>
    intro h
    simp only [udevadmDecodeL, if_neg hcond]
    rw [ih (hasEsc_tail h)]

/-- The decoder replaces the escape following an escape-free prefix and
continues on the remainder. -/
theorem decode_esc_step (h1 h2 : Char) (rest : List Char)
    (hh1 : isHexD h1 = true) (hh2 : isHexD h2 = true) :
    ∀ p : List Char, hasEsc p = false →
      udevadmDecodeL (p ++ '\\' :: 'x' :: h1 :: h2 :: rest) =
        p ++ Char.ofNat (hexVal h1 * 16 + hexVal h2) :: udevadmDecodeL rest := by
  have hxq : isHexD '\\' = false := by decide
  intro p
  induction p with
  | nil =>
    intro _
    simp [udevadmDecodeL, hh1, hh2]
  | cons a p' ih =>
    intro hp
    have hp' : hasEsc p' = false := hasEsc_tail hp
    have step : udevadmDecodeL ((a :: p') ++ '\\' :: 'x' :: h1 :: h2 :: rest) =
        a :: udevadmDecodeL (p' ++ '\\' :: 'x' :: h1 :: h2 :: rest) := by
      rcases p' with _ | ⟨b, _ | ⟨c, _ | ⟨d, p''⟩⟩⟩
      · simp [udevadmDecodeL]
      · simp [udevadmDecodeL, hxq]
      · simp [udevadmDecodeL, hxq]
      · simp only [hasEsc, Bool.or_eq_false_iff] at hp
        simp [List.cons_append, udevadmDecodeL, hp.1]
    rw [step, ih hp']
    simp [List.cons_append]

/-- C6: the decoder replaces each backslash-x-two-hex-digit escape with
the character whose code is the byte value, leaves escape-free text
unchanged, and maps the string hello backslash x20 world to hello space
world. -/
theorem decoder_contract (s : String) (p rest : List Char) (h1 h2 : Char)
    (hs : hasEsc s.data = false) (hp : hasEsc p = false)
    (hh1 : isHexD h1 = true) (hh2 : isHexD h2 = true) :
    udevadm_decode s = s ∧
    udevadmDecodeL (p ++ '\\' :: 'x' :: h1 :: h2 :: rest) =
      p ++ Char.ofNat (hexVal h1 * 16 + hexVal h2) :: udevadmDecodeL rest ∧
    udevadm_decode "hello\\x20world" = "hello world" := by
  refine ⟨?_, decode_esc_step h1 h2 rest hh1 hh2 p hp, by decide⟩
  show String.mk (udevadmDecodeL s.data) = s
  rw [decode_noesc s.data hs]

/-- C6 witness: the decoder contract applied at concrete inputs. -/
theorem decoder_contract_witness :
    hasEsc "abc".data = false ∧ hasEsc ['q'] = false ∧
    isHexD '2' = true ∧ isHexD '0' = true ∧
    (udevadm_decode "abc" = "abc" ∧
     udevadmDecodeL (['q'] ++ '\\' :: 'x' :: '2' :: '0' :: []) =
       ['q'] ++ Char.ofNat (hexVal '2' * 16 + hexVal '0') :: udevadmDecodeL [] ∧
     udevadm_decode "hello\\x20world" = "hello world") :=
  ⟨by decide, by decide, by decide, by decide,
   decoder_contract "abc" ['q'] [] '2' '0' (by decide) (by decide)
     (by decide) (by decide)⟩

/-- C4: enumeration emits a present device only when the parsed property
map binds ID_BUS to usb and has a DEVNAME binding; a device whose
property map lacks ID_BUS equal to usb is never emitted, so no
fingerprint is constructed from a non-USB device. -/
theorem enumeration_requires_usb (lines : List String) :
    (alookup "ID_BUS" (parseProps lines) ≠ some "usb" →
      read_usb_info lines = none) ∧
    (∀ t, read_usb_info lines = some t →
      alookup "ID_BUS" (parseProps lines) = some "usb" ∧
      (alookup "DEVNAME" (parseProps lines)).isSome = true) := by
  constructor
  · intro hbus
    simp only [read_usb_info, if_neg hbus]
  · intro t ht
    simp only [read_usb_info] at ht
    by_cases hbus : alookup "ID_BUS" (parseProps lines) = some "usb"
    · refine ⟨hbus, ?_⟩
      rw [if_pos hbus] at ht
      rcases hdev : alookup "DEVNAME" (parseProps lines) with _ | raw
      · rw [show extractField (parseProps lines) "DEVNAME" = none by
            simp [extractField, hdev]] at ht
        exact absurd ht (by simp)
      · rfl
    · rw [if_neg hbus] at ht
      exact absurd ht (by simp)

/-- C4 witness: a device reporting a PCI bus is not enumerated even
though it has a device node path. -/
theorem enumeration_requires_usb_witness :
    alookup "ID_BUS"
        (parseProps ["ID_BUS=" ++ qs ++ "pci" ++ qs,
                     "DEVNAME=" ++ qs ++ "/dev/ttyS0" ++ qs]) ≠ some "usb" ∧
    read_usb_info ["ID_BUS=" ++ qs ++ "pci" ++ qs,
                   "DEVNAME=" ++ qs ++ "/dev/ttyS0" ++ qs] = none :=
  ⟨by decide,
   (enumeration_requires_usb
       ["ID_BUS=" ++ qs ++ "pci" ++ qs,
        "DEVNAME=" ++ qs ++ "/dev/ttyS0" ++ qs]).1 (by decide)⟩

/-- The pick loop leaves its accumulator untouched over a device list
with no fingerprint match. -/
theorem pickLoop_no_match (tty : Tty) (friendly : String) :
    ∀ (l : List PresentTty) (acc : Option String),
      l.filter (fun c => c.tty = tty : _ → Bool) = [] →
      pickLoop tty friendly l acc = .ok acc := by
  intro l
  induction l with
  | nil => intro acc _; rfl
  | cons c rest ih =>
    intro acc hf
    rw [List.filter_cons] at hf
    by_cases hc : c.tty = tty
    · simp [hc] at hf
    · simp only [pickLoop, if_neg hc]
      exact ih acc (by simpa [hc] using hf)

/-- The pick loop fails as ambiguous when it already holds a device and
another match occurs. -/
theorem pickLoop_second_match (tty : Tty) (friendly : String) :
    ∀ (l : List PresentTty) (x : String),
      l.filter (fun c => c.tty = tty : _ → Bool) ≠ [] →
      pickLoop tty friendly l (some x) = .error (ambiguousMsg friendly) := by
  intro l
  induction l with
  | nil => intro x hf; exact absurd rfl hf
  | cons c rest ih =>
    intro x hf
    rw [List.filter_cons] at hf
    by_cases hc : c.tty = tty
    · simp only [pickLoop, if_pos hc]
    · simp only [pickLoop, if_neg hc]
      exact ih x (by simpa [hc] using hf)

/-- The pick loop returns the single matching device. -/
theorem pickLoop_one_match (tty : Tty) (friendly : String) :
    ∀ (l : List PresentTty) (d : PresentTty),
      l.filter (fun c => c.tty = tty : _ → Bool) = [d] →
      pickLoop tty friendly l none = .ok (some d.device) := by
  intro l
  induction l with
  | nil => intro d hf; exact absurd hf (by simp)
  | cons c rest ih =>
    intro d hf
    rw [List.filter_cons] at hf
    by_cases hc : c.tty = tty
    · rw [if_pos (by simp [hc] : decide (c.tty = tty) = true)] at hf
      rcases List.cons_eq_cons.mp hf with ⟨hcd, hrest⟩
      simp only [pickLoop, if_pos hc]
      rw [pickLoop_no_match tty friendly rest _ hrest, hcd]
    · simp only [pickLoop, if_neg hc]
      exact ih d (by simpa [hc] using hf)

/-- The pick loop fails as ambiguous when at least two devices match. -/
theorem pickLoop_two_matches (tty : Tty) (friendly : String) :
    ∀ l : List PresentTty,
      2 ≤ (l.filter (fun c => c.tty = tty : _ → Bool)).length →
      pickLoop tty friendly l none = .error (ambiguousMsg friendly) := by
  intro l
  induction l with
  | nil => intro h; simp at h
  | cons c rest ih =>
    intro h
    rw [List.filter_cons] at h
    by_cases hc : c.tty = tty
    · simp only [pickLoop, if_pos hc]
      apply pickLoop_second_match
      rw [if_pos (by simp [hc] : decide (c.tty = tty) = true)] at h
      intro hnil
      rw [hnil] at h
      simp at h
    · simp only [pickLoop, if_neg hc]
      exact ih (by simpa [hc] using h)

/-- C1: resolve fails with the unknown-alias error when the name is not
stored; otherwise, with the stored fingerprint, zero present matches
fail with the not-present error, a unique match returns that devices
path, and two or more matches fail with the ambiguous error. -/
theorem resolve_classifies (cfg : Configuration) (present : List PresentTty)
    (friendly : String) :
    (alookup friendly cfg.ttys = none →
      resolveCmd cfg present friendly = .error (unknownAliasMsg friendly)) ∧
    (∀ tty, alookup friendly cfg.ttys = some tty →
      ((present.filter (fun c => c.tty = tty : _ → Bool)) = [] →
        resolveCmd cfg present friendly = .error notPresentMsg) ∧
      (∀ d, present.filter (fun c => c.tty = tty : _ → Bool) = [d] →
        resolveCmd cfg present friendly = .ok d.device) ∧
      (2 ≤ (present.filter (fun c => c.tty = tty : _ → Bool)).length →
        resolveCmd cfg present friendly = .error (ambiguousMsg friendly))) := by
  constructor
  · intro hnone
    simp only [resolveCmd, hnone]
  · intro tty hsome
    refine ⟨?_, ?_, ?_⟩
    · intro hnil
      simp only [resolveCmd, hsome]
      rw [pickLoop_no_match tty friendly present none hnil]
    · intro d hone
      simp only [resolveCmd, hsome]
      rw [pickLoop_one_match tty friendly present d hone]
    · intro htwo
      simp only [resolveCmd, hsome]
      rw [pickLoop_two_matches tty friendly present htwo]

/-- C1 witness: the four resolve outcomes on concrete stores and device
lists. -/
theorem resolve_classifies_witness :
    resolveCmd ⟨[]⟩ [⟨⟨none, none, none⟩, "/dev/a"⟩] "x" =
      .error (unknownAliasMsg "x") ∧
    resolveCmd ⟨[("x", ⟨none, none, none⟩)]⟩ [] "x" = .error notPresentMsg ∧
    resolveCmd ⟨[("x", ⟨none, none, none⟩)]⟩ [⟨⟨none, none, none⟩, "/dev/a"⟩]
      "x" = .ok "/dev/a" ∧
    resolveCmd ⟨[("x", ⟨none, none, none⟩)]⟩
      [⟨⟨none, none, none⟩, "/dev/a"⟩, ⟨⟨none, none, none⟩, "/dev/b"⟩] "x" =
      .error (ambiguousMsg "x") :=
  ⟨(resolve_classifies ⟨[]⟩ [⟨⟨none, none, none⟩, "/dev/a"⟩] "x").1 rfl,
   ((resolve_classifies ⟨[("x", ⟨none, none, none⟩)]⟩ [] "x").2
      ⟨none, none, none⟩ rfl).1 rfl,
   ((resolve_classifies ⟨[("x", ⟨none, none, none⟩)]⟩
        [⟨⟨none, none, none⟩, "/dev/a"⟩] "x").2
      ⟨none, none, none⟩ rfl).2.1 ⟨⟨none, none, none⟩, "/dev/a"⟩ (by decide),
   ((resolve_classifies ⟨[("x", ⟨none, none, none⟩)]⟩
        [⟨⟨none, none, none⟩, "/dev/a"⟩, ⟨⟨none, none, none⟩, "/dev/b"⟩]
        "x").2
      ⟨none, none, none⟩ rfl).2.2 (by decide)⟩

/-- The device-search loop leaves its accumulator untouched when no
present device has the given path. -/
theorem findToAdd_no_match (device : String) :
    ∀ (l : List PresentTty) (acc : Option PresentTty),
      l.filter (fun t => t.device = device : _ → Bool) = [] →
      findToAdd device l acc = .ok acc := by
  intro l
  induction l with
  | nil => intro acc _; rfl
  | cons c rest ih =>
    intro acc hf
    rw [List.filter_cons] at hf
    by_cases hc : c.device = device
    · simp [hc] at hf
    · simp only [findToAdd, if_neg hc]
      exact ih acc (by simpa [hc] using hf)

/-- The device-search loop returns the single present device at the
given path. -/
theorem findToAdd_one_match (device : String) :
    ∀ (l : List PresentTty) (d : PresentTty),
      l.filter (fun t => t.device = device : _ → Bool) = [d] →
      findToAdd device l none = .ok (some d) := by
  intro l
  induction l with
  | nil => intro d hf; exact absurd hf (by simp)
  | cons c rest ih =>
    intro d hf
    rw [List.filter_cons] at hf
    by_cases hc : c.device = device
    · rw [if_pos (by simp [hc] : decide (c.device = device) = true)] at hf
      rcases List.cons_eq_cons.mp hf with ⟨hcd, hrest⟩
      simp only [findToAdd, if_pos hc]
      rw [findToAdd_no_match device rest _ hrest, hcd]
    · simp only [findToAdd, if_neg hc]
      exact ih d (by simpa [hc] using hf)

/-- C2: a successful add on a uniquely present device removes every
stored entry whose fingerprint equals that devices fingerprint and
inserts the new name, so that afterwards the new name is the only entry
with that fingerprint; the operation reports a modification exactly
when some entry carried that fingerprint before. -/
theorem add_reassigns_alias (friendly device : String) (cfg : Configuration)
    (present : List PresentTty) (d : PresentTty)
    (h1 : subcommandNames.contains friendly = false)
    (h2 : invalidNameMatch friendly = false)
    (h3 : present.filter (fun t => t.device = device : _ → Bool) = [d]) :
    ∃ (store : Configuration) (modified : Bool),
      addCmd friendly device cfg present = .ok (store, modified) ∧
      (friendly, d.tty) ∈ store.ttys ∧
      (∀ n t, (n, t) ∈ store.ttys → t = d.tty → n = friendly) ∧
      (modified = true ↔ ∃ p ∈ cfg.ttys, p.2 = d.tty) := by
  have hrun : addCmd friendly device cfg present =
      .ok (⟨ainsert friendly d.tty
              (cfg.ttys.filter (fun p =>
                !(((cfg.ttys.filter (fun p => p.2 = d.tty : _ → Bool)).map
                    Prod.fst).contains p.1)))⟩,
           !(((cfg.ttys.filter (fun p => p.2 = d.tty : _ → Bool)).map
               Prod.fst).isEmpty)) := by
    simp only [addCmd, h1, h2, Bool.false_eq_true, if_false,
      findToAdd_one_match device present d h3]
  refine ⟨_, _, hrun, ?_, ?_, ?_⟩
  · exact List.mem_cons_self _ _
  · intro n t hmem ht
    rcases List.mem_cons.mp hmem with heq | hmem
    · exact (Prod.mk.injEq _ _ _ _ ▸ heq).1
    · exfalso
      have hrem := (List.mem_filter.mp hmem).1
      have hcfg := (List.mem_filter.mp hrem).1
      have hnotin := (List.mem_filter.mp hrem).2
      have hin : n ∈ (cfg.ttys.filter
          (fun p => p.2 = d.tty : _ → Bool)).map Prod.fst :=
        List.mem_map.mpr ⟨(n, t), List.mem_filter.mpr ⟨hcfg, by simp [ht]⟩, rfl⟩
      have hcontains : ((cfg.ttys.filter
          (fun p => p.2 = d.tty : _ → Bool)).map Prod.fst).contains n = true :=
        List.elem_iff.mpr hin
      rw [hcontains] at hnotin
      simp at hnotin
  · constructor
    · intro hmod
      have hmapne : ((cfg.ttys.filter
          (fun p => p.2 = d.tty : _ → Bool)).map Prod.fst) ≠ [] := by
        intro hnil
        rw [hnil] at hmod
        simp at hmod
      have hfil : cfg.ttys.filter (fun p => p.2 = d.tty : _ → Bool) ≠ [] := by
        intro hnil2
        rw [hnil2] at hmapne
        simp at hmapne
      rcases List.exists_mem_of_length_pos (List.length_pos.mpr hfil) with ⟨p, hp⟩
      have hpm := List.mem_filter.mp hp
      exact ⟨p, hpm.1, by simpa using hpm.2⟩
    · rintro ⟨p, hp, hpt⟩
      have hmem2 : p ∈ cfg.ttys.filter (fun p => p.2 = d.tty : _ → Bool) :=
        List.mem_filter.mpr ⟨hp, by simp [hpt]⟩
      have hne : (cfg.ttys.filter
          (fun p => p.2 = d.tty : _ → Bool)).map Prod.fst ≠ [] := by
        intro hnil
        rw [List.map_eq_nil_iff] at hnil
        rw [hnil] at hmem2
        simp at hmem2
      simp [List.isEmpty_eq_false.mpr hne]

/-- C2 witness: adding a new name for a device that already has the
alias old leaves the new name as the only alias of that fingerprint and
reports a modification. -/
theorem add_reassigns_alias_witness :
    subcommandNames.contains "new" = false ∧
    invalidNameMatch "new" = false ∧
    [(⟨⟨some "m", none, none⟩, "/dev/a"⟩ : PresentTty)].filter
      (fun t => t.device = "/dev/a" : _ → Bool) =
      [⟨⟨some "m", none, none⟩, "/dev/a"⟩] ∧
    ∃ (store : Configuration) (modified : Bool),
      addCmd "new" "/dev/a" ⟨[("old", ⟨some "m", none, none⟩)]⟩
          [⟨⟨some "m", none, none⟩, "/dev/a"⟩] = .ok (store, modified) ∧
      (("new", (⟨some "m", none, none⟩ : Tty)) ∈ store.ttys ∧
       (∀ n t, (n, t) ∈ store.ttys → t = (⟨some "m", none, none⟩ : Tty) →
         n = "new") ∧
       (modified = true ↔
         ∃ p ∈ [("old", (⟨some "m", none, none⟩ : Tty))],
           p.2 = (⟨some "m", none, none⟩ : Tty))) := by
  refine ⟨by decide, by decide, by decide, ?_⟩
  rcases add_reassigns_alias "new" "/dev/a"
      ⟨[("old", ⟨some "m", none, none⟩)]⟩
      [⟨⟨some "m", none, none⟩, "/dev/a"⟩] ⟨⟨some "m", none, none⟩, "/dev/a"⟩
      (by decide) (by decide) (by decide) with ⟨store, modified, h⟩
  exact ⟨store, modified, h.1, h.2.1, h.2.2.1, h.2.2.2⟩

/-- C3: a delete of a name absent from the loaded store fails and
returns the file unchanged, and a save whose encode step fails returns
an error with the file unchanged, before any write happens. -/
theorem failed_mutation_preserves_store :
    (∀ (friendly : String) (file : FsFile) (cfg : Configuration),
      load_config file = .ok cfg → alookup friendly cfg.ttys = none →
      deleteCmd friendly file = (file, .error (deleteUnknownMsg friendly))) ∧
    (∀ (enc : Configuration → Except String Toml) (config : Configuration)
      (file : FsFile) (e : String),
      enc config = .error e →
      save_config enc config file =
        (file, .error ("Failed to encode configuration: " ++ e))) := by
  constructor
  · intro friendly file cfg hload hnone
    simp [deleteCmd, hload, hnone]
  · intro enc config file e henc
    simp [save_config, henc]

/-- C3 witness: deleting from an empty store fails without touching the
file, and a failing encoder aborts a save without touching the file. -/
theorem failed_mutation_preserves_store_witness :
    deleteCmd "x" FsFile.absent = (FsFile.absent, .error (deleteUnknownMsg "x")) ∧
    save_config (fun _ => .error "boom") ⟨[]⟩ FsFile.absent =
      (FsFile.absent, .error ("Failed to encode configuration: " ++ "boom")) :=
  ⟨failed_mutation_preserves_store.1 "x" FsFile.absent ⟨[]⟩ rfl rfl,
   failed_mutation_preserves_store.2 (fun _ => .error "boom") ⟨[]⟩
     FsFile.absent "boom" rfl⟩

/-- C5 counterexample: a store file that exists but cannot be opened,
for example due to permissions, also yields the empty store rather than
an error, so the empty store is not returned exactly when the file is
absent. -/
theorem load_unopenable_empty :
    load_config FsFile.unopenable = .ok ⟨[]⟩ ∧
    FsFile.unopenable ≠ FsFile.absent :=
  ⟨rfl, fun h => nomatch h⟩

/-- C5 amended: load returns the empty store whenever the file fails to
open, absence included; when the file opens but reading fails, or reads
but does not parse to the schema, load returns an error, and a parsed
file returns its full contents. -/
theorem load_config_behavior (f : FsFile) :
    ((f = FsFile.absent ∨ f = FsFile.unopenable) → load_config f = .ok ⟨[]⟩) ∧
    (f = FsFile.readFails → load_config f = .error readErrMsg) ∧
    (∀ doc, f = FsFile.content doc → decodeConfig doc = none →
      load_config f = .error parseErrMsg) ∧
    (∀ doc cfg, f = FsFile.content doc → decodeConfig doc = some cfg →
      load_config f = .ok cfg) := by
  refine ⟨?_, ?_, ?_, ?_⟩
  · rintro (rfl | rfl) <;> rfl
  · rintro rfl; rfl
  · rintro doc rfl hdec
    simp [load_config, hdec]
  · rintro doc cfg rfl hdec
    simp [load_config, hdec]

/-- C5 witness: the load behavior applied to an absent file and to a
file whose read fails. -/
theorem load_config_behavior_witness :
    load_config FsFile.absent = .ok ⟨[]⟩ ∧
    load_config FsFile.readFails = .error readErrMsg :=
  ⟨(load_config_behavior FsFile.absent).1 (Or.inl rfl),
   (load_config_behavior FsFile.readFails).2.1 rfl⟩

/-- Decoding inverts encoding on a single fingerprint, in all eight
combinations of present and absent fields. -/
theorem decodeTty_encodeTty (t : Tty) : decodeTty (encodeTty t) = some t := by
  rcases t with ⟨m, mo, s⟩
  rcases m with _ | mv <;> rcases mo with _ | mov <;> rcases s with _ | sv <;>
    simp [encodeTty, decodeTty, optField, getOptStr, alookup]

/-- Decoding inverts encoding on the list of alias entries. -/
theorem decodeTtys_map (l : List (String × Tty)) :
    decodeTtys (l.map (fun p => (p.1, encodeTty p.2))) = some l := by
  induction l with
  | nil => rfl
  | cons p rest ih => simp [decodeTtys, decodeTty_encodeTty, ih]

/-- Decoding inverts encoding on a whole store. -/
theorem decodeConfig_encodeConfig (c : Configuration) :
    decodeConfig (encodeConfig c) = some c := by
  rcases c with ⟨l⟩
  simp [encodeConfig, decodeConfig, alookup, decodeTtys_map]

/-- C10: saving any store, entries with all three identity fields
absent included, and loading the saved file back yields a store equal
to the original. -/
theorem save_load_roundtrip (cfg : Configuration) (file : FsFile) :
    save_config tomlEncodeE cfg file =
      (FsFile.content (encodeConfig cfg), .ok ()) ∧
    load_config (save_config tomlEncodeE cfg file).1 = .ok cfg := by
  refine ⟨rfl, ?_⟩
  show load_config (FsFile.content (encodeConfig cfg)) = .ok cfg
  simp [load_config, decodeConfig_encodeConfig]

/-- C7: the name validation diverges from the stated naming rule in two
ways.  A name containing a hyphen is rejected with the invalid-name
error for every store and device list, although the rule, and the
programs own error message, allow hyphens: the regex parses its
trailing double dash as an empty class set-difference, so the compiled
class accepts only letters, digits and underscore.  The empty name
passes validation and reaches the device search, although the rule
requires a non-empty token. -/
theorem add_name_validation_bug :
    (∀ (device : String) (cfg : Configuration) (present : List PresentTty),
      addCmd "a-b" device cfg present = .error invalidCharsMsg) ∧
    (∀ (device : String) (cfg : Configuration),
      addCmd "" device cfg [] = .error notConnectedMsg) := by
  constructor
  · intro device cfg present
    have h1 : ("a-b" : String) ∉ subcommandNames := by decide
    have h2 : invalidNameMatch "a-b" = true := by decide
    simp [addCmd, h1, h2]
  · intro device cfg
    have h1 : ("" : String) ∉ subcommandNames := by decide
    have h2 : invalidNameMatch "" = false := by decide
    simp [addCmd, h1, h2, findToAdd]

/-- Helper: takeWhile is the identity when every element satisfies the
predicate. -/
theorem takeWhile_of_all {α : Type} (p : α → Bool) :
    ∀ l : List α, (∀ c ∈ l, p c = true) → l.takeWhile p = l := by
  intro l
  induction l with
  | nil => intro _; rfl
  | cons c rest ih =>
    intro h
    rw [List.takeWhile_cons, if_pos (h c (List.mem_cons_self c rest))]
    rw [ih (fun x hx => h x (List.mem_cons_of_mem c hx))]

/-- One-step unfolding of the last-quote scan. -/
theorem lastQuote_cons (c : Char) (rest : List Char) :
    lastQuote (c :: rest) =
      match lastQuote rest with
      | some (a, b) => some (c :: a, b)
      | none => if c = qc then some ([], rest) else none := rfl

/-- One-step unfolding of the backtracking key search. -/
theorem keySearch_cons (c : Char) (rest : List Char) :
    keySearch (c :: rest) =
      match keySearch rest with
      | some (k, v) => some (c :: k, v)
      | none =>
        if c = '=' then
          match rest with
          | q :: t =>
            if q = qc then (tryValue t).map (fun v => ([], v)) else none
          | [] => none
        else none := rfl

/-- One-step unfolding of the leftmost start search. -/
theorem lineMatch_cons (c : Char) (rest : List Char) :
    lineMatch (c :: rest) =
      match matchAt (c :: rest) with
      | some kv => some kv
      | none => lineMatch rest := rfl

/-- Helper: a quote-free list has no last quote. -/
theorem lastQuote_none : ∀ {b : List Char}, qc ∉ b → lastQuote b = none := by
  intro b
  induction b with
  | nil => intro _; rfl
  | cons c rest ih =>
    intro h
    have hc : ¬c = qc := fun hc => h (hc ▸ List.mem_cons_self c rest)
    rw [lastQuote_cons, ih (fun hm => h (List.mem_cons_of_mem c hm))]
    simp [hc]

/-- Helper: appending one quote to a quote-free list splits at it. -/
theorem lastQuote_append :
    ∀ a : List Char, qc ∉ a → lastQuote (a ++ [qc]) = some (a, []) := by
  intro a
  induction a with
  | nil => simp [lastQuote]
  | cons c a2 ih =>
    intro h
    rw [List.cons_append, lastQuote_cons,
      ih (fun hm => h (List.mem_cons_of_mem c hm))]

/-- Helper: the value capture succeeds on a nonempty nonspace quote-free
value followed by the closing quote. -/
theorem tryValue_wellformed (v : List Char) (hv : v ≠ [])
    (hvs : ∀ c ∈ v, isSp c = false) (hvq : qc ∉ v) :
    tryValue (v ++ [qc]) = some v := by
  have hall : ∀ c ∈ v ++ [qc], (!isSp c) = true := by
    intro c hc
    rcases List.mem_append.mp hc with hcv | hcq
    · simp [hvs c hcv]
    · simp only [List.mem_singleton] at hcq
      subst hcq
      decide
  rw [tryValue, takeWhile_of_all _ _ hall, lastQuote_append v hvq]
  simp [List.isEmpty_eq_true, hv]

/-- Helper: the key search fails on a quote-free list followed by one
quote, because the only quote has nothing after it to serve as a
value. -/
theorem keySearch_tail_none :
    ∀ u : List Char, qc ∉ u → keySearch (u ++ [qc]) = none := by
  intro u
  induction u with
  | nil =>
    intro _
    rw [List.nil_append, keySearch_cons]
    simp [keySearch, tryValue, lastQuote, show ¬qc = '=' from by decide]
  | cons c u2 ih =>
    intro h
    have hrec := ih (fun hm => h (List.mem_cons_of_mem c hm))
    rw [List.cons_append, keySearch_cons, hrec]
    rcases u2 with _ | ⟨d, u3⟩
    · by_cases hc : c = '='
      · simp [hc, show ¬qc = qc → False from fun f => f rfl, tryValue,
          lastQuote]
      · simp [hc]
    · have hd : ¬d = qc := by
        intro hd
        exact h (hd ▸ List.mem_cons_of_mem c (List.mem_cons_self d u3))
      by_cases hc : c = '='
      · simp [hc, hd]
      · simp [hc]

/-- Helper: the key search fails when the run starts at the opening
quote, one position past the equals sign. -/
theorem keySearch_quote_head (v : List Char) (hvq : qc ∉ v) :
    keySearch (qc :: (v ++ [qc])) = none := by
  rw [keySearch_cons, keySearch_tail_none v hvq]
  rcases v with _ | ⟨d, v2⟩
  · simp [show ¬qc = '=' from by decide, tryValue, lastQuote]
  · simp [show ¬qc = '=' from by decide]

/-- Helper: the key search at the equals sign captures the empty key
and the value. -/
theorem keySearch_at_split (v : List Char) (hv : v ≠ [])
    (hvs : ∀ c ∈ v, isSp c = false) (hvq : qc ∉ v) :
    keySearch ('=' :: qc :: (v ++ [qc])) = some ([], v) := by
  rw [keySearch_cons, keySearch_quote_head v hvq]
  simp [tryValue_wellformed v hv hvs hvq]

/-- Helper: the key search over the whole wellformed run captures the
key and the value. -/
theorem keySearch_full (v : List Char) (hv : v ≠ [])
    (hvs : ∀ c ∈ v, isSp c = false) (hvq : qc ∉ v) :
    ∀ k : List Char, '=' ∉ k →
      keySearch (k ++ '=' :: qc :: (v ++ [qc])) = some (k, v) := by
  intro k
  induction k with
  | nil =>
    intro _
    simpa using keySearch_at_split v hv hvs hvq
  | cons c k2 ih =>
    intro h
    rw [List.cons_append, keySearch_cons,
      ih (fun hm => h (List.mem_cons_of_mem c hm))]

/-- C9 amended: a property line whose key is nonempty, whitespace-free
and equals-free, and whose value is nonempty, whitespace-free and
quote-free, is matched with exactly that key and value, and parsing
that single line produces exactly that binding. -/
theorem lineMatch_wellformed (k v : List Char) (hk : k ≠ [])
    (hks : ∀ c ∈ k, isSp c = false) (hke : '=' ∉ k) (hv : v ≠ [])
    (hvs : ∀ c ∈ v, isSp c = false) (hvq : qc ∉ v) :
    lineMatch (k ++ '=' :: qc :: (v ++ [qc])) = some (k, v) ∧
    parseProps [String.mk (k ++ '=' :: qc :: (v ++ [qc]))] =
      [(String.mk k, String.mk v)] := by
  have hall : ∀ c ∈ k ++ '=' :: qc :: (v ++ [qc]), (!isSp c) = true := by
    intro c hc
    rcases List.mem_append.mp hc with hck | hcr
    · simp [hks c hck]
    · rcases List.mem_cons.mp hcr with rfl | hcr
      · decide
      rcases List.mem_cons.mp hcr with rfl | hcr
      · decide
      rcases List.mem_append.mp hcr with hcv | hcq
      · simp [hvs c hcv]
      · simp only [List.mem_singleton] at hcq
        subst hcq
        decide
  obtain ⟨kh, kt, rfl⟩ := List.exists_cons_of_ne_nil hk
  rw [List.cons_append] at hall ⊢
  have hkeyfull : keySearch (kh :: (kt ++ '=' :: qc :: (v ++ [qc]))) =
      some (kh :: kt, v) :=
    keySearch_full v hv hvs hvq (kh :: kt) hke
  have hmat : matchAt (kh :: (kt ++ '=' :: qc :: (v ++ [qc]))) =
      some (kh :: kt, v) := by
    rw [matchAt, takeWhile_of_all _ _ hall]
    simp only [runMatch, hkeyfull]
    rfl
  have hline : lineMatch (kh :: (kt ++ '=' :: qc :: (v ++ [qc]))) =
      some (kh :: kt, v) := by
    rw [lineMatch_cons, hmat]
  refine ⟨hline, ?_⟩
  simp only [parseProps, List.foldl_cons, List.foldl_nil]
  rw [hline]
  rfl

/-- C9 witness: the wellformed-line theorem applied to the line K
equals quote v quote. -/
theorem lineMatch_wellformed_witness :
    lineMatch (['K'] ++ '=' :: qc :: (['v'] ++ [qc])) = some (['K'], ['v']) ∧
    parseProps [String.mk (['K'] ++ '=' :: qc :: (['v'] ++ [qc]))] =
      [(String.mk ['K'], String.mk ['v'])] :=
  lineMatch_wellformed ['K'] ['v'] (by decide) (by decide) (by decide)
    (by decide) (by decide) (by decide)

/-- C9 counterexample: the line K equals quote a space b quote has the
form key equals quoted value, but its value contains a space, so the
regex finds no match and the line is dropped from the property map. -/
theorem parseProps_drops_spaced_value :
    lineMatch ("K=" ++ qs ++ "a b" ++ qs).data = none ∧
    parseProps ["K=" ++ qs ++ "a b" ++ qs] = [] := by
  constructor <;> decide

/-- Helper: permuted stores yield permuted matched-name lists for any
present device. -/
theorem matchedNames_perm {cfg1 cfg2 : Configuration}
    (h : cfg1.ttys.Perm cfg2.ttys) (d : PresentTty) :
    (matchedNames cfg1 d).Perm (matchedNames cfg2 d) :=
  (h.filter _).map Prod.fst

/-- Helper: permuted stores yield permuted row blocks for any present
device. -/
theorem deviceRows_perm {cfg1 cfg2 : Configuration}
    (h : cfg1.ttys.Perm cfg2.ttys) (d : PresentTty) :
    (deviceRows cfg1 d).Perm (deviceRows cfg2 d) := by
  have hm := matchedNames_perm h d
  by_cases he : (matchedNames cfg1 d).isEmpty
  · have he1 : matchedNames cfg1 d = [] := List.isEmpty_eq_true.mp he
    have he2 : matchedNames cfg2 d = [] := by
      rw [he1] at hm
      exact (hm.nil_eq).symm
    simp [deviceRows, he1, he2]
  · have he1 : ¬matchedNames cfg1 d = [] :=
      fun hnil => he (List.isEmpty_eq_true.mpr hnil)
    have he2 : ¬matchedNames cfg2 d = [] := by
      intro hnil
      rw [hnil] at hm
      exact he1 hm.eq_nil
    simp only [deviceRows, greenRows, List.isEmpty_eq_true]
    rw [if_neg he1, if_neg he2]
    exact hm.map _

/-- Helper: permuted stores yield permuted present-device row lists. -/
theorem flattenRows_perm {cfg1 cfg2 : Configuration}
    (h : cfg1.ttys.Perm cfg2.ttys) :
    ∀ present : List PresentTty,
      ((present.map (deviceRows cfg1)).flatten).Perm
        ((present.map (deviceRows cfg2)).flatten) := by
  intro present
  induction present with
  | nil => exact List.Perm.refl _
  | cons d rest ih =>
    simp only [List.map_cons, List.flatten_cons]
    exact (deviceRows_perm h d).append ih

/-- Helper: permuted stores agree on which alias names matched some
present device. -/
theorem notMissing_mem {cfg1 cfg2 : Configuration}
    (h : cfg1.ttys.Perm cfg2.ttys) :
    ∀ (present : List PresentTty) (x : String),
      x ∈ notMissing cfg1 present ↔ x ∈ notMissing cfg2 present := by
  intro present x
  induction present with
  | nil => simp [notMissing]
  | cons d rest ih =>
    simp only [notMissing, List.map_cons, List.flatten_cons,
      List.mem_append] at ih ⊢
    have hm := (matchedNames_perm h d).mem_iff (a := x)
    constructor
    · rintro (h1 | h2)
      · exact Or.inl (hm.mp h1)
      · exact Or.inr (ih.mp h2)
    · rintro (h1 | h2)
      · exact Or.inl (hm.mpr h1)
      · exact Or.inr (ih.mpr h2)

/-- Helper: permuted stores yield permuted missing-alias rows. -/
theorem missingRows_perm {cfg1 cfg2 : Configuration}
    (h : cfg1.ttys.Perm cfg2.ttys) (present : List PresentTty) :
    (missingRows cfg1 present).Perm (missingRows cfg2 present) := by
  have hcont : ∀ (l : List String) (a : String), l.contains a = true ↔ a ∈ l :=
    fun l a => List.elem_iff
  have hpred : ∀ p ∈ cfg1.ttys,
      (!((notMissing cfg1 present).contains p.1) : Bool) =
        (!((notMissing cfg2 present).contains p.1)) := by
    intro p _
    have hc : (notMissing cfg1 present).contains p.1 =
        (notMissing cfg2 present).contains p.1 := by
      rw [← Bool.coe_iff_coe, hcont, hcont]
      exact notMissing_mem h present p.1
    rw [hc]
  simp only [missingRows]
  rw [List.filter_congr hpred]
  exact (h.filter _).map _

/-- C8 amended: for a fixed device list, the multiset of rows produced
by the list branch is determined by the store as a map: permuting the
stores iteration order permutes the rows but never changes their
multiset.  Row order itself is not a function of the store as a map. -/
theorem listRows_multiset_deterministic (cfg1 cfg2 : Configuration)
    (present : List PresentTty) (h : cfg1.ttys.Perm cfg2.ttys) :
    (listRows cfg1 present).Perm (listRows cfg2 present) := by
  simp only [listRows]
  exact (flattenRows_perm h present).append (missingRows_perm h present)

/-- C8 witness: the multiset determinism applied to a two-entry store
and its reversed iteration order. -/
theorem listRows_multiset_deterministic_witness :
    (([("a", (⟨some "m", none, none⟩ : Tty)),
       ("b", (⟨none, none, none⟩ : Tty))] : List (String × Tty)).Perm
      [("b", ⟨none, none, none⟩), ("a", ⟨some "m", none, none⟩)]) ∧
    (listRows ⟨[("a", ⟨some "m", none, none⟩),
                ("b", ⟨none, none, none⟩)]⟩ []).Perm
      (listRows ⟨[("b", ⟨none, none, none⟩),
                  ("a", ⟨some "m", none, none⟩)]⟩ []) :=
  ⟨List.Perm.swap _ _ _,
   listRows_multiset_deterministic _ _ [] (List.Perm.swap _ _ _)⟩

/-- C8 counterexample: two iteration orders of the same store, a
two-entry map with both aliases missing, produce list output with the
rows in different orders, so the rows and their order are not a
function of the store as a map and the device list alone. -/
theorem listRows_order_not_determined :
    (([("a", (⟨some "m", none, none⟩ : Tty)),
       ("b", (⟨none, none, none⟩ : Tty))] : List (String × Tty)).Perm
      [("b", ⟨none, none, none⟩), ("a", ⟨some "m", none, none⟩)]) ∧
    listRows ⟨[("a", ⟨some "m", none, none⟩),
               ("b", ⟨none, none, none⟩)]⟩ [] ≠
      listRows ⟨[("b", ⟨none, none, none⟩),
                 ("a", ⟨some "m", none, none⟩)]⟩ [] := by
  refine ⟨List.Perm.swap _ _ _, ?_⟩
  decide

end Ttynamed
